import Mathlib

/-!
Shallow embedding of `src/use-slot-fill.tsx` (the slot-fill utility):
the `createFill` tagger, the `useSlots` classifier and the `SlotManager`
registry, together with theorems settling the specification claims.

Modelling choices:
* A React child (`ReactNode` element of a shallow children list) is a
  `ContentUnit`: either a non-element node (text) or an element with a
  `type` and a `props.children` list.
* An element's `type` is a `NodeType`: a host tag (string type, not a
  function), a fragment, a plain function component (no `__SLOT_FILL__`
  property), or a fill component carrying the `__SLOT_FILL__` marker
  string.  The `uid` field models JavaScript function identity: two
  calls of `createFill` return two distinct function objects, so two
  fill components for the same slot name differ in `uid` but carry the
  same marker.
* The JavaScript object `slots` is an insertion-ordered association
  list `SlotMap`; property assignment (`SlotMap.set`) overwrites an
  existing key in place.  The `in` operator (`SlotMap.containsKey`)
  consults the prototype chain of the plain `{}` object: it is true
  both for own keys and for the property names of `Object.prototype`
  (`protoKeys`), so the classifier never stores content under a
  prototype property name.
-/

namespace SlotFill

/-- The `type` of a React element, as inspected by the classifier:
`host` is a string-typed element, `fragment` is `React.Fragment`,
`funcComp` a function component without the `__SLOT_FILL__` property,
and `fillComp` a function component carrying `__SLOT_FILL__ = slotFill`
(`uid` models the identity of the function object). -/
inductive NodeType where
  | host (tag : String)
  | fragment
  | funcComp (uid : Nat)
  | fillComp (slotFill : String) (uid : Nat)
deriving DecidableEq, Repr

/-- One unit of the shallow children list: a non-element node (text) or
an element with a `type` and a `props.children` list. -/
inductive ContentUnit where
  | text (s : String)
  | element (ty : NodeType) (childrenProp : List ContentUnit)
deriving Repr

mutual

/-- Decidable equality of content units (written by hand: the deriving
handler does not treat this nested inductive). -/
def ContentUnit.decEq : (a b : ContentUnit) → Decidable (a = b)
  | .text s, .text t =>
      match String.decEq s t with
      | isTrue h => isTrue (by rw [h])
      | isFalse h => isFalse (fun hc => by cases hc; exact h rfl)
  | .element ty ch, .element ty' ch' =>
      match (inferInstanceAs (DecidableEq NodeType)) ty ty', ContentUnit.decEqList ch ch' with
      | isTrue h1, isTrue h2 => isTrue (by rw [h1, h2])
      | isFalse h1, _ => isFalse (fun hc => by cases hc; exact h1 rfl)
      | _, isFalse h2 => isFalse (fun hc => by cases hc; exact h2 rfl)
  | .text _, .element _ _ => isFalse (fun hc => by cases hc)
  | .element _ _, .text _ => isFalse (fun hc => by cases hc)

/-- Decidable equality of lists of content units. -/
def ContentUnit.decEqList : (a b : List ContentUnit) → Decidable (a = b)
  | [], [] => isTrue rfl
  | a :: as, b :: bs =>
      match ContentUnit.decEq a b, ContentUnit.decEqList as bs with
      | isTrue h1, isTrue h2 => isTrue (by rw [h1, h2])
      | isFalse h1, _ => isFalse (fun hc => by cases hc; exact h1 rfl)
      | _, isFalse h2 => isFalse (fun hc => by cases hc; exact h2 rfl)
  | [], _ :: _ => isFalse (fun hc => by cases hc)
  | _ :: _, [] => isFalse (fun hc => by cases hc)

end

instance : DecidableEq ContentUnit := ContentUnit.decEq

/-- The value stored for one slot: the `props.children` of the fill
element (possibly empty, one, or many units). -/
abbrev SlotVal := List ContentUnit

/-- The JavaScript `slots` object: an insertion-ordered association
list from slot names to slot values. -/
abbrev SlotMap := List (String × SlotVal)

/-- Property lookup on the `slots` object. -/
def SlotMap.find? : SlotMap → String → Option SlotVal
  | [], _ => none
  | (k, v) :: m, key => if k = key then some v else SlotMap.find? m key

/-- The property names of `Object.prototype` (ECMAScript, including
the Annex B accessor properties): for a plain object `obj` created by
`{}`, `name in obj` is true at these names through the prototype chain
even when `obj` has no own entry for them. -/
def protoKeys : List String :=
  ["constructor", "hasOwnProperty", "isPrototypeOf", "propertyIsEnumerable",
   "toLocaleString", "toString", "valueOf", "__proto__",
   "__defineGetter__", "__defineSetter__", "__lookupGetter__", "__lookupSetter__"]

/-- The JavaScript `key in slots` test on the plain `{}` object: true
for an own key of `slots` or for any property name inherited from
`Object.prototype`. -/
def SlotMap.containsKey (m : SlotMap) (key : String) : Bool :=
  (m.find? key).isSome || protoKeys.contains key

/-- JavaScript property assignment `slots[key] = v`: overwrites an
existing key in place, otherwise appends the new key at the end. -/
def SlotMap.set : SlotMap → String → SlotVal → SlotMap
  | [], key, v => [(key, v)]
  | (k, w) :: m, key, v =>
      if k = key then (k, v) :: m else (k, w) :: SlotMap.set m key v

/-- `FillComponent`: a function component carrying the
`__SLOT_FILL__` marker (`src/use-slot-fill.tsx`, lines 8-12).  `uid`
models the identity of the underlying function object. -/
structure FillComponent where
  slotFill : String
  uid : Nat
deriving DecidableEq, Repr

/-- `createFill(slotName)` (`src/use-slot-fill.tsx`, lines 32-36):
builds a function component (`uid` is the identity of the freshly
allocated function) and attaches `__SLOT_FILL__ = slotName` to it. -/
def createFill (slotName : String) (uid : Nat) : FillComponent :=
  ⟨slotName, uid⟩

/-- The body of the fill component, `({ children }) => <>{children}</>`:
applied to its `props.children` it returns a fragment wrapping exactly
those children. -/
def FillComponent.renderOutput (_f : FillComponent) (children : List ContentUnit) :
    ContentUnit :=
  .element .fragment children

/-- The children a fragment element re-emits (a fragment renders its
`props.children` unchanged); `none` on a non-fragment unit. -/
def fragmentChildren : ContentUnit → Option (List ContentUnit)
  | .element .fragment ch => some ch
  | _ => none

/-- The element `<F>{children}</F>` built from a fill component `F`:
its `type` is the fill function itself (which carries the marker) and
its `props.children` is `children`. -/
def mkFillElement (f : FillComponent) (children : List ContentUnit) : ContentUnit :=
  .element (.fillComp f.slotFill f.uid) children

/-- The classifier's membership test on one child
(`src/use-slot-fill.tsx`, lines 77-81): a valid element whose `type` is
a function carrying `__SLOT_FILL__`. -/
def isFillUnit : ContentUnit → Bool
  | .element (.fillComp _ _) _ => true
  | _ => false

/-- One iteration of the `Children.forEach` loop of `useSlots`
(`src/use-slot-fill.tsx`, lines 75-91): a non-fill child is pushed onto
the `rest` bucket; a fill child stores its `props.children` under its
marker unless that key is already present (first occurrence wins). -/
def classifyStep : SlotMap × List ContentUnit → ContentUnit → SlotMap × List ContentUnit
  | (slots, rest), .element (.fillComp slotFill _) props =>
      if slots.containsKey slotFill then (slots, rest)
      else (slots.set slotFill props, rest)
  | (slots, rest), child => (slots, rest ++ [child])

/-- `useSlots(children)` (`src/use-slot-fill.tsx`, lines 66-97): if
`Children.count(children)` is zero the empty `slots` object is returned
as-is; otherwise the loop runs over the children and finally
`slots.rest = rest` stores the untagged bucket. -/
def useSlots (children : List ContentUnit) : SlotMap :=
  if children.length = 0 then []
  else
    let acc := children.foldl classifyStep ([], [])
    acc.1.set "rest" acc.2

/-- The `SlotManager` class (`src/use-slot-fill.tsx`, lines 137-195):
holds the permitted set of slot names given at construction. -/
structure SlotManager where
  slots : List String
deriving DecidableEq, Repr

/-- `SlotManager.createFill` (`src/use-slot-fill.tsx`, lines 155-160):
throws `Slot "<name>" does not exist` when the name is not in the
permitted set, otherwise delegates to the plain `createFill`. -/
def SlotManager.createFill (m : SlotManager) (slotName : String) (uid : Nat) :
    Except String FillComponent :=
  if slotName ∈ m.slots then .ok (SlotFill.createFill slotName uid)
  else .error ("Slot \"" ++ slotName ++ "\" does not exist")

/-- `SlotManager.useSlots` (`src/use-slot-fill.tsx`, lines 190-194):
delegates to the standalone `useSlots` unchanged. -/
def SlotManager.useSlots (_m : SlotManager) (children : List ContentUnit) : SlotMap :=
  SlotFill.useSlots children

/-- The slot name a unit would be classified under (`none` on a
non-fill unit). -/
def slotOf? : ContentUnit → Option String
  | .element (.fillComp s _) _ => some s
  | _ => none

/-- The `props.children` of the first fill unit for slot `s` in the
list, if any. -/
def firstFillContent? (s : String) : List ContentUnit → Option SlotVal
  | [] => none
  | .element (.fillComp s' _) props :: rest =>
      if s' = s then some props else firstFillContent? s rest
  | _ :: rest => firstFillContent? s rest

/-- The subsequence of units the classifier pushes onto the `rest`
bucket, in order. -/
def untaggedUnits (children : List ContentUnit) : List ContentUnit :=
  children.filter (fun u => !isFillUnit u)

/-! ### Basic lemmas about the slot-map operations -/

theorem SlotMap.find_set_self (m : SlotMap) (key : String) (v : SlotVal) :
    (m.set key v).find? key = some v := by
  induction m with
  | nil => simp [SlotMap.set, SlotMap.find?]
  | cons hd tl ih =>
      obtain ⟨k, w⟩ := hd
      by_cases h : k = key
      · simp [SlotMap.set, SlotMap.find?, h]
      · simp [SlotMap.set, SlotMap.find?, h, ih]

theorem SlotMap.find_set_ne (m : SlotMap) (key k : String) (v : SlotVal)
    (h : k ≠ key) : (m.set key v).find? k = m.find? k := by
  induction m with
  | nil => simp [SlotMap.set, SlotMap.find?, Ne.symm h]
  | cons hd tl ih =>
      obtain ⟨k', w⟩ := hd
      by_cases hk : k' = key
      · subst hk
        simp [SlotMap.set, SlotMap.find?, Ne.symm h]
      · by_cases hkk : k' = k
        · subst hkk
          simp [SlotMap.set, SlotMap.find?, hk]
        · simp [SlotMap.set, SlotMap.find?, hk, hkk, ih]

/-! ### Invariants of the classification fold -/

theorem foldl_classify_find_some (children : List ContentUnit) (slots₀ : SlotMap)
    (rest₀ : List ContentUnit) (s : String) (v : SlotVal)
    (h : slots₀.find? s = some v) :
    ((children.foldl classifyStep (slots₀, rest₀)).1).find? s = some v := by
  induction children generalizing slots₀ rest₀ with
  | nil => simpa using h
  | cons u tl ih =>
      match u with
      | .text t => exact ih _ _ h
      | .element (.host tag) ch => exact ih _ _ h
      | .element .fragment ch => exact ih _ _ h
      | .element (.funcComp uid) ch => exact ih _ _ h
      | .element (.fillComp s' uid) props =>
          by_cases hmem : slots₀.containsKey s' = true
          · simp only [List.foldl_cons, classifyStep, hmem, if_pos]
            exact ih _ _ h
          · have hne : s ≠ s' := by
              intro hss
              subst hss
              simp [SlotMap.containsKey, h] at hmem
            simp only [List.foldl_cons, classifyStep, hmem, if_neg, Bool.not_eq_true]
            exact ih _ _ (by rw [SlotMap.find_set_ne _ _ _ _ hne]; exact h)

theorem foldl_classify_find_none (children : List ContentUnit) (slots₀ : SlotMap)
    (rest₀ : List ContentUnit) (s : String)
    (h : slots₀.find? s = none) (hproto : protoKeys.contains s = false) :
    ((children.foldl classifyStep (slots₀, rest₀)).1).find? s
      = firstFillContent? s children := by
  induction children generalizing slots₀ rest₀ with
  | nil => simpa [firstFillContent?] using h
  | cons u tl ih =>
      match u with
      | .text t => simpa [firstFillContent?] using ih _ _ h
      | .element (.host tag) ch => simpa [firstFillContent?] using ih _ _ h
      | .element .fragment ch => simpa [firstFillContent?] using ih _ _ h
      | .element (.funcComp uid) ch => simpa [firstFillContent?] using ih _ _ h
      | .element (.fillComp s' uid) props =>
          by_cases hss : s' = s
          · subst hss
            have hmem : ¬ slots₀.containsKey s' = true := by
              have hp : s' ∉ protoKeys := by simpa using hproto
              simp [SlotMap.containsKey, h, hp]
            simp only [List.foldl_cons, classifyStep, hmem, if_neg, firstFillContent?,
              if_pos]
            exact foldl_classify_find_some tl _ _ s' props
              (SlotMap.find_set_self slots₀ s' props)
          · by_cases hmem : slots₀.containsKey s' = true
            · simp only [List.foldl_cons, classifyStep, hmem, if_pos,
                firstFillContent?, hss, if_neg]
              exact ih _ _ h
            · simp only [List.foldl_cons, classifyStep, hmem, if_neg,
                firstFillContent?, hss, Bool.not_eq_true]
              exact ih _ _
                (by rw [SlotMap.find_set_ne _ _ _ _ (fun hc => hss hc.symm)]; exact h)

theorem foldl_classify_rest (children : List ContentUnit) (slots₀ : SlotMap)
    (rest₀ : List ContentUnit) :
    (children.foldl classifyStep (slots₀, rest₀)).2 = rest₀ ++ untaggedUnits children := by
  induction children generalizing slots₀ rest₀ with
  | nil => simp [untaggedUnits]
  | cons u tl ih =>
      match u with
      | .text t => simp [classifyStep, untaggedUnits, isFillUnit, List.filter, ih]
      | .element (.host tag) ch =>
          simp [classifyStep, untaggedUnits, isFillUnit, List.filter, ih]
      | .element .fragment ch =>
          simp [classifyStep, untaggedUnits, isFillUnit, List.filter, ih]
      | .element (.funcComp uid) ch =>
          simp [classifyStep, untaggedUnits, isFillUnit, List.filter, ih]
      | .element (.fillComp s' uid) props =>
          by_cases hmem : slots₀.containsKey s' = true
          · simp [classifyStep, hmem, untaggedUnits, isFillUnit, List.filter, ih]
          · simp [classifyStep, hmem, untaggedUnits, isFillUnit, List.filter, ih]

theorem foldl_classify_nofill (children : List ContentUnit) (slots₀ : SlotMap)
    (rest₀ : List ContentUnit) (h : ∀ u ∈ children, isFillUnit u = false) :
    (children.foldl classifyStep (slots₀, rest₀)).1 = slots₀ := by
  induction children generalizing slots₀ rest₀ with
  | nil => rfl
  | cons u tl ih =>
      have htl : ∀ u ∈ tl, isFillUnit u = false := fun x hx => h x (List.mem_cons_of_mem _ hx)
      match u with
      | .text t => exact ih _ _ htl
      | .element (.host tag) ch => exact ih _ _ htl
      | .element .fragment ch => exact ih _ _ htl
      | .element (.funcComp uid) ch => exact ih _ _ htl
      | .element (.fillComp s' uid) props =>
          have := h _ (List.mem_cons_self _ _)
          simp [isFillUnit] at this

/-! ### Consequences for `useSlots` -/

theorem useSlots_eq_of_ne_nil (children : List ContentUnit) (h : children ≠ []) :
    useSlots children
      = (children.foldl classifyStep ([], [])).1.set "rest"
        (children.foldl classifyStep ([], [])).2 := by
  simp only [useSlots]
  rw [if_neg (show ¬(children.length = 0) by simp [List.length_eq_zero, h])]

theorem useSlots_find_of_firstFill (s : String) (children : List ContentUnit)
    (c : SlotVal) (hs : s ≠ "rest") (hproto : protoKeys.contains s = false)
    (hfirst : firstFillContent? s children = some c) :
    (useSlots children).find? s = some c := by
  match children with
  | [] => simp [firstFillContent?] at hfirst
  | u :: tl =>
      rw [useSlots_eq_of_ne_nil _ (by simp), SlotMap.find_set_ne _ _ _ _ hs,
        foldl_classify_find_none (u :: tl) [] [] s rfl hproto]
      exact hfirst

theorem useSlots_find_rest (children : List ContentUnit) (h : children ≠ []) :
    (useSlots children).find? "rest" = some (untaggedUnits children) := by
  rw [useSlots_eq_of_ne_nil _ h, foldl_classify_rest children [] []]
  exact SlotMap.find_set_self _ _ _

theorem firstFill_append (pre : List ContentUnit) (s : String) (uid : Nat)
    (c : SlotVal) (post : List ContentUnit)
    (hpre : ∀ u ∈ pre, slotOf? u ≠ some s) :
    firstFillContent? s (pre ++ ContentUnit.element (NodeType.fillComp s uid) c :: post)
      = some c := by
  induction pre with
  | nil => simp [firstFillContent?]
  | cons u tl ih =>
      have htl : ∀ x ∈ tl, slotOf? x ≠ some s := fun x hx => hpre x (List.mem_cons_of_mem _ hx)
      have hu := hpre u (List.mem_cons_self _ _)
      match u with
      | .text t => simpa [firstFillContent?] using ih htl
      | .element (.host tag) ch => simpa [firstFillContent?] using ih htl
      | .element .fragment ch => simpa [firstFillContent?] using ih htl
      | .element (.funcComp uidd) ch => simpa [firstFillContent?] using ih htl
      | .element (.fillComp s' uidd) ch =>
          have hss : ¬ s' = s := by
            intro hc
            exact hu (by simp [slotOf?, hc])
          simpa [firstFillContent?, hss] using ih htl

theorem firstFill_append_left (s : String) (children l : List ContentUnit)
    (c : SlotVal) (h : firstFillContent? s children = some c) :
    firstFillContent? s (children ++ l) = some c := by
  induction children with
  | nil => simp [firstFillContent?] at h
  | cons u tl ih =>
      match u with
      | .text t =>
          simp only [List.cons_append, firstFillContent?] at h ⊢
          exact ih h
      | .element (.host tag) ch =>
          simp only [List.cons_append, firstFillContent?] at h ⊢
          exact ih h
      | .element .fragment ch =>
          simp only [List.cons_append, firstFillContent?] at h ⊢
          exact ih h
      | .element (.funcComp uid) ch =>
          simp only [List.cons_append, firstFillContent?] at h ⊢
          exact ih h
      | .element (.fillComp s' uid) ch =>
          simp only [List.cons_append, firstFillContent?] at h ⊢
          by_cases hss : s' = s
          · rwa [if_pos hss] at h ⊢
          · rw [if_neg hss] at h ⊢
            exact ih h

/-! ## The specification claims -/

/-- Claim C1 (amended): the SlotMap returned by `useSlots` contains the
key `rest` for every NON-EMPTY input sequence; classifying the empty
sequence hits the early return of line 73 and yields the empty map,
which has no `rest` entry. -/
theorem useSlots_rest_key_presence (children : List ContentUnit) :
    (children ≠ [] → (useSlots children).containsKey "rest" = true)
    ∧ useSlots ([] : List ContentUnit) = ([] : SlotMap) := by
  refine ⟨fun h => ?_, rfl⟩
  simp [SlotMap.containsKey, useSlots_find_rest children h]

/-- Claim C1, witness: a concrete non-empty input whose result contains
the `rest` key. -/
theorem useSlots_rest_key_presence_witness :
    (useSlots [ContentUnit.text "a"]).containsKey "rest" = true :=
  (useSlots_rest_key_presence [ContentUnit.text "a"]).1 (by simp)

/-- Claim C1, counterexample: classifying the empty sequence returns the
empty map, which does not contain the key `rest` (the claim asserts the
key is present for every input, the empty sequence included). -/
theorem useSlots_rest_key_presence_cex :
    (useSlots ([] : List ContentUnit)).containsKey "rest" = false := rfl

/-- Claim C2 (amended): first-match wins for every slot name `s` that
is neither the reserved key `rest` nor a property name of
`Object.prototype`: whenever the first tagged unit for `s` in the input
carries content `c`, the entry for `s` is `c`, and appending a further
tagged unit for `s` with any content `d` leaves the entry unchanged
(the later content is discarded).  (For `s = "rest"` the entry is
finally overwritten by the untagged bucket; for a prototype property
name the `in` test of line 89 is already true on the empty object, so
no entry is ever created.) -/
theorem useSlots_first_match_wins (s : String) (children : List ContentUnit)
    (c d : SlotVal) (uid : Nat) (hs : s ≠ "rest")
    (hproto : protoKeys.contains s = false)
    (hfirst : firstFillContent? s children = some c) :
    (useSlots children).find? s = some c
    ∧ (useSlots (children
        ++ [ContentUnit.element (NodeType.fillComp s uid) d])).find? s = some c :=
  ⟨useSlots_find_of_firstFill s children c hs hproto hfirst,
   useSlots_find_of_firstFill s _ c hs hproto
     (firstFill_append_left s children _ c hfirst)⟩

/-- Claim C2, witness: `[Tagged(s,[A]), Tagged(s,[B])]` classifies to
an entry `[A]` for `s`, the later `[B]` being discarded. -/
theorem useSlots_first_match_wins_witness :
    (useSlots [ContentUnit.element (NodeType.fillComp "s" 0) [ContentUnit.text "A"],
        ContentUnit.element (NodeType.fillComp "s" 1) [ContentUnit.text "B"]]).find? "s"
      = some [ContentUnit.text "A"] :=
  (useSlots_first_match_wins "s"
    [ContentUnit.element (NodeType.fillComp "s" 0) [ContentUnit.text "A"]]
    [ContentUnit.text "A"] [ContentUnit.text "B"] 1 (by decide) (by decide) rfl).2

/-- Claim C2, counterexample: the claim fails as universally stated
over slot names.  For the slot name `"rest"` the entry does NOT equal
the first tagged unit's content — after the pass the untagged bucket
(here empty) overwrites it.  For the slot name `"toString"` the `in`
test of line 89 is already true on the empty object through the
prototype chain, so the first tagged unit is skipped and no entry
equal to its content exists either. -/
theorem useSlots_first_match_wins_cex :
    ((useSlots [ContentUnit.element (NodeType.fillComp "rest" 0) [ContentUnit.text "A"],
        ContentUnit.element (NodeType.fillComp "rest" 1) [ContentUnit.text "B"]]).find? "rest"
      ≠ some [ContentUnit.text "A"])
    ∧ ((useSlots [ContentUnit.element (NodeType.fillComp "toString" 0) [ContentUnit.text "A"],
        ContentUnit.element (NodeType.fillComp "toString" 1) [ContentUnit.text "B"]]).find? "toString"
      ≠ some [ContentUnit.text "A"]) := by decide

/-- Claim C3 (amended): for a TaggedUnit `T` with slot name `s` and
content `c`, classifying a sequence containing `T` yields the entry `c`
for `s` PROVIDED `T` is the first tagged unit for `s` in the sequence
and `s` is neither the reserved key `rest` nor a property name of
`Object.prototype` (`c` may be empty, one, or many units; the
surrounding sequence is arbitrary). -/
theorem useSlots_entry_of_first_tagged (pre post : List ContentUnit) (s : String)
    (uid : Nat) (c : SlotVal) (hs : s ≠ "rest")
    (hproto : protoKeys.contains s = false)
    (hpre : ∀ u ∈ pre, slotOf? u ≠ some s) :
    (useSlots (pre ++ ContentUnit.element (NodeType.fillComp s uid) c :: post)).find? s
      = some c :=
  useSlots_find_of_firstFill s _ c hs hproto (firstFill_append pre s uid c post hpre)

/-- Claim C3, witness: `[x, Tagged(s,[A]), z]` classifies to the entry
`[A]` for `s`. -/
theorem useSlots_entry_of_first_tagged_witness :
    (useSlots [ContentUnit.text "x",
        ContentUnit.element (NodeType.fillComp "s" 0) [ContentUnit.text "A"],
        ContentUnit.text "z"]).find? "s" = some [ContentUnit.text "A"] :=
  useSlots_entry_of_first_tagged [ContentUnit.text "x"] [ContentUnit.text "z"] "s" 0
    [ContentUnit.text "A"] (by decide) (by decide) (by simp [slotOf?])

/-- Claim C3, counterexample: the claim fails as stated.  The first
input contains the TaggedUnit `Tagged("s",[B])`, yet the entry for
`"s"` is not `[B]` — an earlier tagged unit for the same slot won.  The
second input contains the sole TaggedUnit `Tagged("toString",[A])`, yet
no entry for `"toString"` is created at all: the `in` test of line 89
is true through the prototype chain, so the fill is skipped. -/
theorem useSlots_entry_of_first_tagged_cex :
    ((useSlots [ContentUnit.element (NodeType.fillComp "s" 0) [ContentUnit.text "A"],
        ContentUnit.element (NodeType.fillComp "s" 1) [ContentUnit.text "B"]]).find? "s"
      ≠ some [ContentUnit.text "B"])
    ∧ ((useSlots [ContentUnit.element (NodeType.fillComp "toString" 0)
        [ContentUnit.text "A"]]).find? "toString"
      ≠ some [ContentUnit.text "A"]) := by decide

/-- Claim C4 (amended): for every NON-EMPTY input sequence the `rest`
entry equals exactly the subsequence of untagged units in their original
relative order, and a non-empty sequence with no tagged units classifies
to the map whose only entry is `rest` bound to the input itself; the
empty sequence instead returns the empty map with no `rest` entry. -/
theorem useSlots_rest_untagged (children : List ContentUnit) (h : children ≠ []) :
    (useSlots children).find? "rest" = some (untaggedUnits children)
    ∧ ((∀ u ∈ children, isFillUnit u = false) → useSlots children = [("rest", children)]) := by
  refine ⟨useSlots_find_rest children h, fun hnf => ?_⟩
  rw [useSlots_eq_of_ne_nil _ h, foldl_classify_nofill _ _ _ hnf,
    foldl_classify_rest children [] []]
  rw [List.nil_append]
  have hall : untaggedUnits children = children := by
    unfold untaggedUnits
    refine List.filter_eq_self.mpr (fun a ha => ?_)
    simp [hnf a ha]
  rw [hall]
  rfl

/-- Claim C4, witness: `[x, Tagged(s,[y]), z]` puts exactly `[x, z]`
into `rest`, and an all-untagged input maps to only the `rest` entry. -/
theorem useSlots_rest_untagged_witness :
    (useSlots [ContentUnit.text "x",
        ContentUnit.element (NodeType.fillComp "s" 0) [ContentUnit.text "y"],
        ContentUnit.text "z"]).find? "rest"
      = some [ContentUnit.text "x", ContentUnit.text "z"]
    ∧ useSlots [ContentUnit.text "x"] = [("rest", [ContentUnit.text "x"])] :=
  ⟨(useSlots_rest_untagged [ContentUnit.text "x",
      ContentUnit.element (NodeType.fillComp "s" 0) [ContentUnit.text "y"],
      ContentUnit.text "z"] (by simp)).1,
   (useSlots_rest_untagged [ContentUnit.text "x"] (by simp)).2 (by decide)⟩

/-- Claim C4, counterexample: the empty sequence contains no tagged
units, but its classification has no `rest` entry at all (the empty map
is returned), against the claimed `rest == []`. -/
theorem useSlots_rest_untagged_cex :
    (useSlots ([] : List ContentUnit)).find? "rest" ≠ some ([] : SlotVal) := by decide

/-- Claim C5: `SlotManager.useSlots` is extensionally equal to the
standalone classifier `useSlots`; in particular entries for slot names
outside the manager's permitted set are not filtered out. -/
theorem slotManager_useSlots_delegates (m : SlotManager) (children : List ContentUnit) :
    m.useSlots children = useSlots children
    ∧ ∀ s : String, s ∉ m.slots →
        (m.useSlots children).find? s = (useSlots children).find? s :=
  ⟨rfl, fun _ _ => rfl⟩

/-- Claim C5, witness: a manager permitting only `"a"` classifies a
tree tagged for the unregistered `"z"` exactly as the standalone
classifier does. -/
theorem slotManager_useSlots_delegates_witness :
    ((SlotManager.mk ["a"]).useSlots
        [ContentUnit.element (NodeType.fillComp "z" 0) [ContentUnit.text "Z"]]).find? "z"
      = (useSlots
        [ContentUnit.element (NodeType.fillComp "z" 0) [ContentUnit.text "Z"]]).find? "z" :=
  (slotManager_useSlots_delegates (SlotManager.mk ["a"])
    [ContentUnit.element (NodeType.fillComp "z" 0) [ContentUnit.text "Z"]]).2 "z" (by decide)

/-- Claim C6: `SlotManager.createFill` errors exactly on slot names
outside the permitted set, the error message contains the offending
name, and on success it returns exactly the plain `createFill` result. -/
theorem slotManager_createFill_spec (m : SlotManager) (s : String) (uid : Nat) :
    (s ∈ m.slots → m.createFill s uid = Except.ok (createFill s uid))
    ∧ (s ∉ m.slots →
        m.createFill s uid = Except.error ("Slot \"" ++ s ++ "\" does not exist"))
    ∧ (s ∉ m.slots →
        ∃ a b : String, m.createFill s uid = Except.error (a ++ s ++ b)) := by
  refine ⟨fun h => ?_, fun h => ?_, fun h => ?_⟩
  · simp [SlotManager.createFill, h]
  · simp [SlotManager.createFill, h]
  · exact ⟨"Slot \"", "\" does not exist", by simp [SlotManager.createFill, h]⟩

/-- Claim C6, witness: with permitted set `{a, b}`, `createFill "a"`
succeeds with the plain tagger's output and `createFill "c"` fails with
a message containing `"c"`. -/
theorem slotManager_createFill_spec_witness :
    (SlotManager.mk ["a", "b"]).createFill "a" 0 = Except.ok (createFill "a" 0)
    ∧ ∃ x y : String,
        (SlotManager.mk ["a", "b"]).createFill "c" 1 = Except.error (x ++ "c" ++ y) :=
  ⟨(slotManager_createFill_spec (SlotManager.mk ["a", "b"]) "a" 0).1 (by decide),
   (slotManager_createFill_spec (SlotManager.mk ["a", "b"]) "c" 1).2.2 (by decide)⟩

/-- Claim C7: two fill components created by `createFill` for the same
slot name (distinct function identities `u₁`, `u₂`) are interchangeable:
replacing a tagged unit built from one by a tagged unit built from the
other, with the same nested content, yields the same SlotMap — detection
reads the attached marker, not the function identity. -/
theorem createFill_taggers_interchangeable (pre post : List ContentUnit) (s : String)
    (c : SlotVal) (u₁ u₂ : Nat) :
    useSlots (pre ++ mkFillElement (createFill s u₁) c :: post)
      = useSlots (pre ++ mkFillElement (createFill s u₂) c :: post) := by
  have hstep : ∀ acc : SlotMap × List ContentUnit,
      classifyStep acc (mkFillElement (createFill s u₁) c)
        = classifyStep acc (mkFillElement (createFill s u₂) c) := by
    intro acc
    obtain ⟨slots, rest⟩ := acc
    simp [classifyStep, mkFillElement, createFill]
  rw [useSlots_eq_of_ne_nil _ (by simp), useSlots_eq_of_ne_nil _ (by simp)]
  rw [List.foldl_append, List.foldl_append, List.foldl_cons, List.foldl_cons, hstep]

/-- Claim C8: `createFill` is a pure total construction: the returned
component carries the publicly-inspectable marker equal to the given
slot name, and its body applied to nested content emits exactly that
content (wrapped in a fragment, which re-emits it unchanged). -/
theorem createFill_marker_and_render (s : String) (uid : Nat) (ch : List ContentUnit) :
    (createFill s uid).slotFill = s
    ∧ (createFill s uid).renderOutput ch = ContentUnit.element NodeType.fragment ch
    ∧ fragmentChildren ((createFill s uid).renderOutput ch) = some ch :=
  ⟨rfl, rfl, rfl⟩

/-- Claim C9: for every non-empty input the final `rest` entry is the
untagged bucket, even when the input holds a unit tagged for the slot
literally named `rest`; in particular the content of a unit tagged
`rest` is silently lost — a sequence holding only `Tagged("rest", c)`
classifies to `{rest: []}` whatever `c` is. -/
theorem useSlots_rest_overwrites_tagged (children : List ContentUnit) (h : children ≠ []) :
    (useSlots children).find? "rest" = some (untaggedUnits children)
    ∧ ∀ (c : SlotVal) (uid : Nat),
        useSlots [ContentUnit.element (NodeType.fillComp "rest" uid) c] = [("rest", [])] :=
  ⟨useSlots_find_rest children h, fun _ _ => rfl⟩

/-- Claim C9, witness: `[x, Tagged("rest",[y])]` classifies with
`rest == [x]` — the tagged content `[y]` is gone. -/
theorem useSlots_rest_overwrites_tagged_witness :
    (useSlots [ContentUnit.text "x",
        ContentUnit.element (NodeType.fillComp "rest" 0) [ContentUnit.text "y"]]).find? "rest"
      = some [ContentUnit.text "x"] :=
  (useSlots_rest_overwrites_tagged [ContentUnit.text "x",
    ContentUnit.element (NodeType.fillComp "rest" 0) [ContentUnit.text "y"]] (by simp)).1

/-- Claim C10 (amended): the first-occurrence-wins rule is decided by
key presence, not content: for a slot name `s` that is neither the
reserved `rest` nor a property name of `Object.prototype`, if the first
tagged unit for `s` in the sequence (after an arbitrary prefix holding
no tagged unit for `s`) carries EMPTY content, then the entry for `s`
is that empty content, whatever tagged units (with whatever non-empty
content) follow.  (For `s = "rest"` the final entry is instead the
untagged bucket; for a prototype property name no entry is created.) -/
theorem useSlots_empty_first_occurrence (pre tail : List ContentUnit) (s : String)
    (uid : Nat) (hs : s ≠ "rest") (hproto : protoKeys.contains s = false)
    (hpre : ∀ u ∈ pre, slotOf? u ≠ some s) :
    (useSlots (pre ++ ContentUnit.element (NodeType.fillComp s uid) [] :: tail)).find? s
      = some ([] : SlotVal) :=
  useSlots_find_of_firstFill s _ _ hs hproto (firstFill_append pre s uid [] tail hpre)

/-- Claim C10, witness: `[x, Tagged(a,[]), Tagged(a,[y])]` classifies
with the entry `[]` for `a` — the later non-empty content does not
replace the earlier empty one. -/
theorem useSlots_empty_first_occurrence_witness :
    (useSlots [ContentUnit.text "x",
        ContentUnit.element (NodeType.fillComp "a" 0) [],
        ContentUnit.element (NodeType.fillComp "a" 1) [ContentUnit.text "y"]]).find? "a"
      = some ([] : SlotVal) :=
  useSlots_empty_first_occurrence [ContentUnit.text "x"]
    [ContentUnit.element (NodeType.fillComp "a" 1) [ContentUnit.text "y"]] "a" 0
    (by decide) (by decide) (by simp [slotOf?])

/-- Claim C10, counterexample: the claim fails as universally stated
over slot names.  For `"rest"`, even though the first tagged unit for
it carries empty content, the final entry is the untagged bucket `[x]`,
not the empty content.  For `"toString"`, the first (empty-content)
tagged unit is skipped by the prototype-chain `in` test of line 89, so
the entry is absent rather than the empty content. -/
theorem useSlots_empty_first_occurrence_cex :
    ((useSlots [ContentUnit.text "x",
        ContentUnit.element (NodeType.fillComp "rest" 0) [],
        ContentUnit.element (NodeType.fillComp "rest" 1) [ContentUnit.text "y"]]).find? "rest"
      ≠ some ([] : SlotVal))
    ∧ ((useSlots [ContentUnit.element (NodeType.fillComp "toString" 0) [],
        ContentUnit.element (NodeType.fillComp "toString" 1)
          [ContentUnit.text "y"]]).find? "toString"
      ≠ some ([] : SlotVal)) := by decide

end SlotFill
